import Mathlib

set_option maxRecDepth 16384

/-!
Verification development for the `video-downloader` repository
(`downloader/downloader.go`).

The Go code is shallowly embedded: bytes are modelled as `Char` (all data
relevant to the program is ASCII text; Go byte strings that reach
`strings.*` helpers are valid UTF-8, on which byte-wise operations agree
with rune-wise ones for the ASCII separators used here), `io.Writer`
chunks as `List Char`, and the stateful writers of `progressWriter` /
`teeWriter` as explicit state passing.  `float64` values produced by
`strconv.ParseFloat` are kept as exact (unnormalised) fractions: the
syntactic acceptance and the overflow error range of `ParseFloat` are
modelled exactly (`ErrRange` is overflow-only — a value that rounds to
zero, such as `"1e-324"`, is accepted, `ParseFloat` returning `(0, nil)`),
while rounding of an accepted value to the nearest binary64 is not
performed: an accepted value is kept exact, so an underflowing field like
`"1e-324"` is carried as its exact decimal value rather than the rounded
`0` (every numeric value appearing in a theorem below is exactly
representable, so the distinction never decides a claim).
-/

/-! ### Go string primitives (`strings`, `unicode` packages) -/

/-- Model of `unicode.IsSpace`: the Unicode `White_Space` property, i.e.
U+0009–U+000D, U+0020, U+0085, U+00A0, U+1680, U+2000–U+200A, U+2028,
U+2029, U+202F, U+205F, U+3000. -/
def goIsSpace (c : Char) : Bool :=
  let n := c.toNat
  n == 0x20 || (decide (0x9 ≤ n) && decide (n ≤ 0xD)) || n == 0x85 || n == 0xA0 ||
  n == 0x1680 || (decide (0x2000 ≤ n) && decide (n ≤ 0x200A)) || n == 0x2028 ||
  n == 0x2029 || n == 0x202F || n == 0x205F || n == 0x3000

/-- Drop leading and trailing `unicode.IsSpace` characters (list form). -/
def trimSpaceL (l : List Char) : List Char :=
  ((l.dropWhile goIsSpace).reverse.dropWhile goIsSpace).reverse

/-- Model of `strings.TrimSpace`. -/
def goTrimSpace (s : String) : String :=
  String.mk (trimSpaceL s.data)

/-- Model of `strings.Split` for a single-character separator: splits around
every instance of `sep`; `Split("", sep) = [""]`.  The separator used by the
program is the ASCII `'|'`, for which Go's byte-wise split agrees with this
character-wise split. -/
def splitOnChar (sep : Char) : List Char → List (List Char)
  | [] => [[]]
  | c :: rest =>
    let r := splitOnChar sep rest
    if c = sep then [] :: r
    else (c :: r.headI) :: r.tail

/-- String-level wrapper of `splitOnChar`. -/
def goSplit (sep : Char) (s : String) : List String :=
  (splitOnChar sep s.data).map String.mk

/-- Model of `strings.TrimSuffix`: drop `suf` from the end of `s` if and only
if `s` ends with `suf`. -/
def goTrimSuffix (s suf : String) : String :=
  if List.isSuffixOf suf.data s.data then
    String.mk (s.data.take (s.data.length - suf.data.length))
  else s

/-- Model of `strings.EqualFold s "N/A"`, specialised to the constant
`"N/A"`.  Unicode simple case folding puts `'N'` in the orbit `{N, n}`,
`'A'` in `{A, a}` and `'/'` alone, so `EqualFold` with `"N/A"` holds exactly
for the three-rune strings matched here. -/
def goEqualFoldNA (s : String) : Bool :=
  match s.data with
  | [c1, c2, c3] => (c1 == 'N' || c1 == 'n') && c2 == '/' && (c3 == 'A' || c3 == 'a')
  | _ => false

/-! ### Model of `strconv.ParseFloat(s, 64)` -/

/-- Exact rational value `num / den` (not necessarily in lowest terms);
`den` is positive by construction everywhere below. -/
structure Frac where
  num : Int
  den : Nat
deriving DecidableEq

/-- Value of a `Frac` as a rational number (used only in statements). -/
def Frac.toRat (f : Frac) : ℚ :=
  (f.num : ℚ) / (f.den : ℚ)

/-- Result of `strconv.ParseFloat`: a finite value (kept exact), an
infinity, or a NaN. -/
inductive GoFloat where
  | finite (f : Frac)
  | inf (neg : Bool)
  | nan
deriving DecidableEq

/-- ASCII lower-casing, as Go's `strconv` does with `c | 0x20` on letters. -/
def asciiLower (c : Char) : Char :=
  if decide (65 ≤ c.toNat) && decide (c.toNat ≤ 90) then Char.ofNat (c.toNat + 32) else c

/-- Case-insensitive (ASCII) comparison of `s` against a lowercase constant,
as in `strconv`'s `commonPrefixLenIgnoreCase` used over the whole string. -/
def lowerEq (s : List Char) (t : String) : Bool :=
  s.map asciiLower == t.data

/-- Model of `strconv.special` together with `ParseFloat`'s requirement that
the whole input be consumed: `"inf"`/`"infinity"` with optional sign, and
unsigned `"nan"`, all case-insensitively. -/
def specialFloat (s : List Char) : Option GoFloat :=
  match s with
  | '+' :: rest =>
    if lowerEq rest "inf" || lowerEq rest "infinity" then some (.inf false) else none
  | '-' :: rest =>
    if lowerEq rest "inf" || lowerEq rest "infinity" then some (.inf true) else none
  | _ =>
    if lowerEq s "inf" || lowerEq s "infinity" then some (.inf false)
    else if lowerEq s "nan" then some .nan
    else none

/-- ASCII decimal digit test. -/
def isDigitChar (c : Char) : Bool :=
  decide (48 ≤ c.toNat) && decide (c.toNat ≤ 57)

/-- ASCII hexadecimal digit test. -/
def isHexDigitChar (c : Char) : Bool :=
  isDigitChar c || (decide (97 ≤ (asciiLower c).toNat) && decide ((asciiLower c).toNat ≤ 102))

/-- Numeric value of a (decimal or hexadecimal) digit character. -/
def digitVal (c : Char) : Nat :=
  if isDigitChar c then c.toNat - 48 else (asciiLower c).toNat - 87

/-- Accumulate a digit string in the given base. -/
def digitsToNat (base : Nat) (ds : List Char) : Nat :=
  ds.foldl (fun n c => n * base + digitVal c) 0

/-- Model of `strconv.underscoreOK`'s scanning loop.  `saw` is the class of
the previous character: `'^'` start, `'0'` digit (or base prefix), `'_'`
underscore, `'!'` other. -/
def underscoreOKAux (hexOk : Bool) : Char → List Char → Bool
  | saw, [] => saw != '_'
  | saw, c :: rest =>
    if isDigitChar c || (hexOk && decide (97 ≤ (asciiLower c).toNat) && decide ((asciiLower c).toNat ≤ 102)) then
      underscoreOKAux hexOk '0' rest
    else if c == '_' then
      if saw == '0' then underscoreOKAux hexOk '_' rest else false
    else if saw == '_' then false
    else underscoreOKAux hexOk '!' rest

/-- Model of `strconv.underscoreOK`: underscores may appear only between
digits, or between a base prefix and a digit. -/
def underscoreOK (s : List Char) : Bool :=
  let s1 := match s with
    | '+' :: t => t
    | '-' :: t => t
    | _ => s
  match s1 with
  | '0' :: c :: rest =>
    if asciiLower c == 'b' || asciiLower c == 'o' || asciiLower c == 'x' then
      underscoreOKAux (asciiLower c == 'x') '0' rest
    else underscoreOKAux false '^' s1
  | _ => underscoreOKAux false '^' s1

/-- Signed exact value `m * base ^ e`. -/
def fracOfMant (base : Nat) (neg : Bool) (m : Nat) (e : Int) : Frac :=
  let n : Int := if neg then -(m : Int) else (m : Int)
  if 0 ≤ e then ⟨n * (base : Int) ^ e.toNat, 1⟩ else ⟨n, base ^ (-e).toNat⟩

/-- Optional sign in front of an exponent. -/
def splitExpSign : List Char → Bool × List Char
  | '+' :: t => (false, t)
  | '-' :: t => (true, t)
  | t => (false, t)

/-- Exponent part after `e`/`E`/`p`/`P`: optional sign then at least one
decimal digit, consuming the whole rest of the input. -/
def parseExp (t : List Char) : Option Int :=
  let (eneg, t1) := splitExpSign t
  let (ed, t2) := t1.span isDigitChar
  if ed.isEmpty || !t2.isEmpty then none
  else some (if eneg then -(digitsToNat 10 ed : Int) else (digitsToNat 10 ed : Int))

/-- Decimal mantissa with optional fraction and optional `e` exponent
(`strconv.readFloat`, base-10 path, on underscore-free input). -/
def parseDecCore (neg : Bool) (ds : List Char) : Option Frac :=
  let (ip, r1) := ds.span isDigitChar
  let fr : List Char × List Char := match r1 with
    | '.' :: r2 => r2.span isDigitChar
    | _ => ([], r1)
  let fp := fr.1
  let r3 := fr.2
  if ip.isEmpty && fp.isEmpty then none
  else
    let m := digitsToNat 10 (ip ++ fp)
    match r3 with
    | [] => some (fracOfMant 10 neg m (-(fp.length : Int)))
    | e :: t =>
      if e == 'e' || e == 'E' then
        match parseExp t with
        | some ex => some (fracOfMant 10 neg m (ex - (fp.length : Int)))
        | none => none
      else none

/-- Hexadecimal mantissa (after the `0x` prefix) with mandatory `p`
exponent (`strconv.readFloat`, base-16 path, on underscore-free input). -/
def parseHexCore (neg : Bool) (ds : List Char) : Option Frac :=
  let (ip, r1) := ds.span isHexDigitChar
  let fr : List Char × List Char := match r1 with
    | '.' :: r2 => r2.span isHexDigitChar
    | _ => ([], r1)
  let fp := fr.1
  let r3 := fr.2
  if ip.isEmpty && fp.isEmpty then none
  else
    let m := digitsToNat 16 (ip ++ fp)
    match r3 with
    | p :: t =>
      if p == 'p' || p == 'P' then
        match parseExp t with
        | some ex => some (fracOfMant 2 neg m (ex - 4 * (fp.length : Int)))
        | none => none
      else none
    | [] => none

/-- `|f| ≥ |g|`, by cross-multiplication (denominators are positive). -/
def fracAbsGe (f g : Frac) : Bool :=
  decide (g.num.natAbs * f.den ≤ f.num.natAbs * g.den)

/-- Smallest magnitude that binary64 round-to-nearest-even sends to
infinity: `2^1024 - 2^970` (`ParseFloat` then reports `ErrRange`).  Written
as a literal so that kernel reduction never unfolds `Nat.pow` step by step;
`float64OverflowBound_eq` checks the closed form. -/
def float64OverflowBound : Frac :=
  ⟨179769313486231580793728971405303415079934132710037826936173778980444968292764750946649017977587207096330286416692887910946555547851940402630657488671505820681908902000708383676273854845817711531764475730270069855571366959622842914819860834936475292719074168444365510704342711559699508093042880177904174497792, 1⟩

/-- The overflow bound literal is `2^1024 - 2^970`. -/
theorem float64OverflowBound_eq : float64OverflowBound.num = 2 ^ 1024 - 2 ^ 970 := by
  norm_num [float64OverflowBound]

/-- Model of `strconv.ParseFloat(s, 64)`: `none` is a non-nil error — a
syntax error, or the overflow `ErrRange` (the only range error `ParseFloat`
has: a well-formed value that rounds to zero is *accepted*, Go returning
`(0, nil)`; here the accepted value is kept exact instead of rounded).
`some` is the parsed value. -/
def goParseFloat (s : List Char) : Option GoFloat :=
  match specialFloat s with
  | some f => some f
  | none =>
    if s.contains '_' && !underscoreOK s then none
    else
      let s1 := s.filter (fun c => c != '_')
      let sr : Bool × List Char := match s1 with
        | '+' :: t => (false, t)
        | '-' :: t => (true, t)
        | _ => (false, s1)
      let neg := sr.1
      let rest := sr.2
      let core := match rest with
        | '0' :: c :: t =>
          if c == 'x' || c == 'X' then parseHexCore neg t else parseDecCore neg rest
        | _ => parseDecCore neg rest
      match core with
      | none => none
      | some q =>
        if fracAbsGe q float64OverflowBound then none
        else some (.finite q)

example : goParseFloat "42.5".data = some (.finite ⟨425, 10⟩) := by decide
example : goParseFloat "42.5%".data = none := by decide
example : goParseFloat "150.5".data = some (.finite ⟨1505, 10⟩) := by decide
example : goParseFloat "Unknown".data = none := by decide
example : goParseFloat "".data = none := by decide
example : goParseFloat "-1e2".data = some (.finite ⟨-100, 1⟩) := by decide
example : goParseFloat "0x1.8p1".data = some (.finite ⟨24, 8⟩) := by decide
example : goParseFloat "iNf".data = some (.inf false) := by decide
example : goParseFloat "4_2".data = some (.finite ⟨42, 1⟩) := by decide
example : goParseFloat "_42".data = none := by decide
example : goParseFloat "1e-324".data = some (.finite ⟨1, 10 ^ 324⟩) := by decide
example : goParseFloat "1e309".data = none := by decide

/-! ### Progress record decoder (`parseProgress`, downloader.go:233-258) -/

/-- Go struct `ProgressUpdate` (downloader.go:73-78); `Percent` is the
`float64` field, kept exact. -/
structure ProgressUpdate where
  Percent : GoFloat
  ETA : String
  Speed : String
  Raw : String
deriving DecidableEq

/-- Go constant `progressPartsCount = 3` (downloader.go:82). -/
def progressPartsCount : Nat := 3

/-- Go constant `progressTemplate` (downloader.go:81). -/
def progressTemplate : String :=
  "%(progress._percent_str)s|%(progress._eta_str)s|%(progress._speed_str)s"

/-- Normalised first field of a candidate progress line, exactly as
downloader.go:239 computes it:
`strings.TrimSpace(strings.TrimSuffix(parts[0], "%"))` — note the `%` is
stripped **before** whitespace is trimmed. -/
def percentField (line : String) : String :=
  goTrimSpace (goTrimSuffix ((goSplit '|' line).getD 0 "") "%")

/-- The `ProgressUpdate{Raw: line}` value Go returns on every failure path
(zero values for the other fields). -/
def failUpdate (line : String) : ProgressUpdate :=
  ⟨.finite ⟨0, 1⟩, "", "", line⟩

/-- Model of `parseProgress` (downloader.go:233-258).  Returns the update
and the `ok` flag, exactly as the Go function does. -/
def parseProgress (line : String) : ProgressUpdate × Bool :=
  let parts := goSplit '|' line
  if parts.length ≠ progressPartsCount then (failUpdate line, false)
  else
    let rawPercent := percentField line
    let eta := goTrimSpace (parts.getD 1 "")
    let speed := goTrimSpace (parts.getD 2 "")
    if rawPercent == "" || goEqualFoldNA rawPercent then (failUpdate line, false)
    else
      match goParseFloat rawPercent.data with
      | none => (failUpdate line, false)
      | some f => (⟨f, eta, speed, line⟩, true)

example : (parseProgress "  42.5%|  00:10  |  1.2MiB/s").2 = true := by decide
example : (parseProgress "42.5%  |  00:10  |  1.2MiB/s").2 = false := by decide
example : (parseProgress "N/A%|Unknown|Unknown").2 = false := by decide
example : (parseProgress "just a log line").2 = false := by decide
example : (parseProgress "1e-324|00:10|2MiB/s").2 = true := by decide

/-! ### Stream multiplexer (`teeWriter`, `progressWriter`, downloader.go:177-231) -/

/-- State of one stream's write sink: `buf` is the internal accumulation
`bytes.Buffer`, `lineBuf` the pending-line `strings.Builder` of
`progressWriter`, and `events` the ordered history of progress-callback
invocations (the callback itself is opaque; only its invocation sequence is
observable). -/
structure PWState where
  buf : List Char
  lineBuf : List Char
  events : List ProgressUpdate
deriving DecidableEq

/-- Fresh writer state: empty buffers, no callbacks fired. -/
def initPW : PWState :=
  ⟨[], [], []⟩

/-- The update delivered for one completed line buffer (terminator
included), if any: downloader.go:212-217 trims the pending bytes and fires
the callback only when `parseProgress` reports ok. -/
def lineEvent (l : List Char) : Option ProgressUpdate :=
  let p := parseProgress (goTrimSpace (String.mk l))
  if p.2 then some p.1 else none

/-- One step of the byte loop of downloader.go:208-219: append the byte to
`lineBuf`; on a line feed, reset `lineBuf` and fire the callback when the
completed line decodes. -/
def processByte (s : PWState) (b : Char) : PWState :=
  if b = '\n' then
    match lineEvent (s.lineBuf ++ [b]) with
    | some u => ⟨s.buf, [], s.events ++ [u]⟩
    | none => ⟨s.buf, [], s.events⟩
  else ⟨s.buf, s.lineBuf ++ [b], s.events⟩

/-- The whole byte loop over a chunk. -/
def processBytes (s : PWState) (bs : List Char) : PWState :=
  bs.foldl processByte s

/-- Errors a stream write can surface (downloader.go:200 and 205).  The
`bufferOutput` case ("buffer output: %w") is unreachable:
`bytes.Buffer.Write` is documented to always return a nil error, so the
model's buffer write always succeeds, as in any actual Go execution. -/
inductive WriteFailure where
  | passthrough
  | bufferOutput
deriving DecidableEq

/-- One call of the write sink produced by `progressWriter`
(downloader.go:197-222), and equally of `teeWriter`'s
`io.MultiWriter(extra, &buf)` when `hasCb = false` (downloader.go:177-185):
write the chunk to the external sink first (failing with the passthrough
error and *without* accumulating if the sink errors), then append it to the
accumulation buffer, then (callback configured) run the byte loop.  `sinkOk`
is the outcome of the external sink's `Write` for this chunk; it is ignored
when no sink is configured. -/
def pwWriteChunk (hasSink hasCb : Bool) (s : PWState) (chunk : List Char) (sinkOk : Bool) :
    Except WriteFailure (PWState × Nat) :=
  if hasSink && !sinkOk then .error .passthrough
  else
    .ok (if hasCb then processBytes ⟨s.buf ++ chunk, s.lineBuf, s.events⟩ chunk
         else ⟨s.buf ++ chunk, s.lineBuf, s.events⟩, chunk.length)

/-- A stream's whole life: the pipe copier inside `os/exec` delivers the
chunks in order and stops at the first write error (`io.Copy` aborts when
`Write` returns an error).  Each chunk is paired with its external sink's
write outcome. -/
def pwRun (hasSink hasCb : Bool) (s : PWState) :
    List (List Char × Bool) → PWState × Option WriteFailure
  | [] => (s, none)
  | (c, ok) :: rest =>
    match pwWriteChunk hasSink hasCb s c ok with
    | .error e => (s, some e)
    | .ok (s1, _) => pwRun hasSink hasCb s1 rest

/-- Pair every chunk with a succeeding sink write. -/
def allOk (cs : List (List Char)) : List (List Char × Bool) :=
  cs.map (fun c => (c, true))

/-- The `'\n'`-terminated segments of a byte stream (each including its
terminator), given the bytes pending from before; the trailing unterminated
remainder contributes no segment. -/
def segsFrom (pending : List Char) : List Char → List (List Char)
  | [] => []
  | b :: rest =>
    if b = '\n' then (pending ++ [b]) :: segsFrom [] rest
    else segsFrom (pending ++ [b]) rest

example :
    (pwRun false true initPW (allOk ["12.5%|00:1".data, "0|9MiB/s\nnoise\n".data])).1.events
      = [⟨.finite ⟨125, 10⟩, "00:10", "9MiB/s", "12.5%|00:10|9MiB/s"⟩] := by decide
example : (pwRun true true initPW [("a".data, false)]).1.buf = [] := by decide
example : (pwRun true false initPW (allOk ["ab".data, "c".data])).1.buf = "abc".data := by decide

/-! ### Argument builder (`buildArgs`, downloader.go:128-175) -/

/-- Lexicographic order on character lists by code point.  UTF-8 byte
order coincides with code-point order, so this is exactly the `<=` Go's
`sort.Strings` uses on (valid UTF-8) strings. -/
def goCharsLe : List Char → List Char → Bool
  | [], _ => true
  | _ :: _, [] => false
  | a :: as, b :: bs =>
    if a.toNat = b.toNat then goCharsLe as bs
    else decide (a.toNat < b.toNat)

/-- Go string `<=` (byte-wise comparison). -/
def goStrLe (a b : String) : Bool :=
  goCharsLe a.data b.data

/-- `goStrLe` as a decidable relation, for sorting. -/
def strLeProp : String → String → Prop :=
  fun a b => goStrLe a b = true

instance : DecidableRel strLeProp :=
  fun a b => inferInstanceAs (Decidable (goStrLe a b = true))

/-- Totality of `goCharsLe`. -/
theorem goCharsLe_total (x : List Char) : ∀ y, goCharsLe x y = true ∨ goCharsLe y x = true := by
  induction x with
  | nil => intro y; left; rfl
  | cons a as ih =>
    intro y
    cases y with
    | nil => right; rfl
    | cons b bs =>
      by_cases h : a.toNat = b.toNat
      · rcases ih bs with h1 | h1
        · left; simp [goCharsLe, h, h1]
        · right; simp [goCharsLe, h.symm, h1]
      · rcases Nat.lt_or_ge a.toNat b.toNat with hlt | hge
        · left; simp [goCharsLe, h, hlt]
        · have hbl : b.toNat < a.toNat := by omega
          right; simp [goCharsLe, Ne.symm h, hbl]

/-- Transitivity of `goCharsLe`. -/
theorem goCharsLe_trans (x : List Char) :
    ∀ y z, goCharsLe x y = true → goCharsLe y z = true → goCharsLe x z = true := by
  induction x with
  | nil => intro y z _ _; rfl
  | cons a as ih =>
    intro y z h1 h2
    cases y with
    | nil => simp [goCharsLe] at h1
    | cons b bs =>
      cases z with
      | nil => simp [goCharsLe] at h2
      | cons c cs =>
        by_cases hab : a.toNat = b.toNat <;> by_cases hbc : b.toNat = c.toNat
        · simp only [goCharsLe, if_pos hab] at h1
          simp only [goCharsLe, if_pos hbc] at h2
          simp only [goCharsLe, if_pos (hab.trans hbc)]
          exact ih bs cs h1 h2
        · simp only [goCharsLe, if_pos hab] at h1
          simp only [goCharsLe, if_neg hbc, decide_eq_true_eq] at h2
          have : a.toNat < c.toNat := by omega
          simp [goCharsLe, show a.toNat ≠ c.toNat by omega, this]
        · simp only [goCharsLe, if_neg hab, decide_eq_true_eq] at h1
          simp only [goCharsLe, if_pos hbc] at h2
          have : a.toNat < c.toNat := by omega
          simp [goCharsLe, show a.toNat ≠ c.toNat by omega, this]
        · simp only [goCharsLe, if_neg hab, decide_eq_true_eq] at h1
          simp only [goCharsLe, if_neg hbc, decide_eq_true_eq] at h2
          have : a.toNat < c.toNat := by omega
          simp [goCharsLe, show a.toNat ≠ c.toNat by omega, this]

instance : IsTotal String strLeProp :=
  ⟨fun a b => goCharsLe_total a.data b.data⟩

instance : IsTrans String strLeProp :=
  ⟨fun a b c h1 h2 => goCharsLe_trans a.data b.data c.data h1 h2⟩

/-- Go map lookup `opts.Headers[k]`, for a map modelled as an association
list with pairwise distinct keys. -/
def lookupHeader (hs : List (String × String)) (k : String) : String :=
  match hs.find? (fun p => p.1 == k) with
  | some p => p.2
  | none => ""

/-- The header keys in the order the loop of downloader.go:153-169 visits
them: collected from the map and sorted by `sort.Strings`.  Any correct
sort yields the same (unique, for distinct keys) ascending permutation;
insertion sort is used as the model. -/
def sortedHeaderKeys (hs : List (String × String)) : List String :=
  List.insertionSort strLeProp (hs.map Prod.fst)

/-- The `--add-header` tokens emitted by downloader.go:153-169: one
`--add-header k:v` pair per key, in sorted key order, skipping values whose
`strings.TrimSpace` is empty. -/
def headerArgs (hs : List (String × String)) : List String :=
  if 0 < hs.length then
    (sortedHeaderKeys hs).flatMap (fun k =>
      let v := goTrimSpace (lookupHeader hs k)
      if v == "" then [] else ["--add-header", k ++ ":" ++ v])
  else []

/-- Go struct `Options` (downloader.go:53-64).  The writer-typed fields
`Stdout`/`Stderr` and the callback `Progress` are modelled by their
presence (`≠ nil`), which is all the control flow inspects. -/
structure Options where
  OutputTemplate : String
  Format : String
  Proxy : String
  CookiesFile : String
  Headers : List (String × String)
  ExtraArgs : List String
  WorkDir : String
  hasStdout : Bool
  hasStderr : Bool
  hasProgress : Bool

/-- Model of `buildArgs` (downloader.go:128-175): the successive
`args = append(args, ...)` steps, as one concatenation. -/
def buildArgs (url : String) (opts : Options) : List String :=
  ["--newline"]
    ++ (if opts.hasProgress then ["--progress-template", progressTemplate] else ["--no-progress"])
    ++ (if opts.OutputTemplate ≠ "" then ["-o", opts.OutputTemplate] else [])
    ++ (if opts.Format ≠ "" then ["-f", opts.Format] else [])
    ++ (if opts.Proxy ≠ "" then ["--proxy", opts.Proxy] else [])
    ++ (if opts.CookiesFile ≠ "" then ["--cookies", opts.CookiesFile] else [])
    ++ headerArgs opts.Headers
    ++ opts.ExtraArgs
    ++ [url]

example :
    buildArgs "u" ⟨"", "", "", "", [("Z", "1"), ("A", "2")], [], "", false, false, false⟩
      = ["--newline", "--no-progress", "--add-header", "A:2", "--add-header", "Z:1", "u"] := by
  decide

/-! ### Process invocation (`Download`, downloader.go:88-126) -/

/-- Go struct `Result` (downloader.go:67-70): the captured bytes of both
streams. -/
structure Result where
  Stdout : List Char
  Stderr : List Char
deriving DecidableEq

/-- The error cases `Download` can return (downloader.go:17-21, 117-123).
`ytDlpFailed` carries the trimmed captured stderr that Go formats into the
error message. -/
inductive DownloadError where
  | urlRequired
  | binaryNotConfigured
  | contextDone
  | ytDlpFailed (stderrTrimmed : List Char)
deriving DecidableEq

/-- Observable behaviour of one `cmd.Run()` of the external binary: the
chunk sequences the OS pipes deliver to the two stream writers (each chunk
paired with the external sink's write outcome for it), whether `cmd.Run`
returned an error, and whether `ctx.Err()` was non-nil when inspected. -/
structure ProcBehavior where
  stdoutChunks : List (List Char × Bool)
  stderrChunks : List (List Char × Bool)
  runErr : Bool
  ctxErr : Bool

/-- Model of `(*Downloader).Download` (downloader.go:88-126), with the
child-process behaviour abstracted by `proc`.  Returns the `(*Result,
error)` pair: the stdout sink is `progressWriter(opts.Progress,
opts.Stdout)`, the stderr sink `teeWriter(opts.Stderr)` (no callback), and
the `Result` is built from both accumulation buffers before the error is
examined. -/
def Download (binPath url : String) (opts : Options) (proc : ProcBehavior) :
    Option Result × Option DownloadError :=
  if url = "" then (none, some .urlRequired)
  else if binPath = "" then (none, some .binaryNotConfigured)
  else
    let stdoutSt := pwRun opts.hasStdout opts.hasProgress initPW proc.stdoutChunks
    let stderrSt := pwRun opts.hasStderr false initPW proc.stderrChunks
    let result : Result := ⟨stdoutSt.1.buf, stderrSt.1.buf⟩
    if proc.runErr then
      if proc.ctxErr then (some result, some .contextDone)
      else (some result, some (.ytDlpFailed (trimSpaceL result.Stderr)))
    else (some result, none)

example :
    Download "yt-dlp" "u" ⟨"", "", "", "", [], [], "", false, false, false⟩
        ⟨[("out\n".data, true)], [("boom\n".data, true)], true, false⟩
      = (some ⟨"out\n".data, "boom\n".data⟩, some (.ytDlpFailed "boom".data)) := by decide

/-! ### Structural lemmas about the writer state machine -/

/-- `processByte` never touches the accumulation buffer and never reads it:
replacing `buf` commutes with the step. -/
theorem processByte_setBuf (s : PWState) (v : List Char) (b : Char) :
    processByte ⟨v, s.lineBuf, s.events⟩ b
      = ⟨v, (processByte s b).lineBuf, (processByte s b).events⟩ := by
  by_cases h : b = '\n'
  · subst h
    cases hE : lineEvent (s.lineBuf ++ ['\n']) <;> simp [processByte, hE]
  · simp [processByte, h]

/-- `processBytes` never touches the accumulation buffer and never reads
it. -/
theorem processBytes_setBuf (bs : List Char) :
    ∀ (s : PWState) (v : List Char),
      processBytes ⟨v, s.lineBuf, s.events⟩ bs
        = ⟨v, (processBytes s bs).lineBuf, (processBytes s bs).events⟩ := by
  induction bs with
  | nil => intro s v; rfl
  | cons b rest ih =>
    intro s v
    show processBytes (processByte ⟨v, s.lineBuf, s.events⟩ b) rest = _
    rw [processByte_setBuf, ih (processByte s b) v]
    rfl

/-- The byte loop leaves `buf` unchanged. -/
theorem processBytes_buf (bs : List Char) (s : PWState) :
    (processBytes s bs).buf = s.buf := by
  have h := processBytes_setBuf bs s s.buf
  rw [show (⟨s.buf, s.lineBuf, s.events⟩ : PWState) = s from rfl] at h
  rw [h]

/-- Processing a concatenation is processing the parts in order. -/
theorem processBytes_append (s : PWState) (a b : List Char) :
    processBytes s (a ++ b) = processBytes (processBytes s a) b :=
  List.foldl_append _ _ _ _

/-- The callback history after a byte run is exactly one entry per
`'\n'`-terminated segment whose (trimmed) line decodes; the unterminated
remainder contributes nothing. -/
theorem processBytes_events (bs : List Char) :
    ∀ s : PWState,
      (processBytes s bs).events
        = s.events ++ (segsFrom s.lineBuf bs).filterMap lineEvent := by
  induction bs with
  | nil => intro s; simp [processBytes, segsFrom]
  | cons b rest ih =>
    intro s
    show (processBytes (processByte s b) rest).events = _
    rw [ih (processByte s b)]
    by_cases h : b = '\n'
    · subst h
      cases hE : lineEvent (s.lineBuf ++ ['\n']) with
      | none => simp [processByte, segsFrom, hE, List.filterMap_cons]
      | some u => simp [processByte, segsFrom, hE, List.filterMap_cons]
    · simp [processByte, h, segsFrom]

/-- Final accumulation buffer of a whole stream run: the concatenation of
the chunks up to (and excluding) the first failing passthrough write; with
no sink configured every chunk counts. -/
theorem pwRun_buf (hasSink hasCb : Bool) (cs : List (List Char × Bool)) :
    ∀ s : PWState,
      (pwRun hasSink hasCb s cs).1.buf
        = s.buf ++ ((cs.takeWhile (fun p => !hasSink || p.2)).map Prod.fst).flatten := by
  induction cs with
  | nil => intro s; simp [pwRun]
  | cons p rest ih =>
    intro s
    obtain ⟨c, ok⟩ := p
    cases hasSink <;> cases ok <;>
      simp [pwRun, pwWriteChunk, List.takeWhile_cons] <;>
      cases hasCb <;>
      simp [ih, processBytes_buf, List.append_assoc]

/-- Full characterisation of a run in which every passthrough write
succeeds (callback configured): the buffer accumulates the whole stream and
the line machinery behaves as one byte loop over the concatenation. -/
theorem pwRun_allOk (hasSink : Bool) (cs : List (List Char)) :
    ∀ s : PWState,
      pwRun hasSink true s (allOk cs)
        = (⟨s.buf ++ cs.flatten, (processBytes s cs.flatten).lineBuf,
            (processBytes s cs.flatten).events⟩, none) := by
  induction cs with
  | nil =>
    intro s
    show (s, none) = _
    simp [processBytes]
  | cons c rest ih =>
    intro s
    have hstep : pwRun hasSink true s (allOk (c :: rest))
        = pwRun hasSink true (processBytes ⟨s.buf ++ c, s.lineBuf, s.events⟩ c) (allOk rest) := by
      cases hasSink <;> rfl
    rw [hstep, processBytes_setBuf c s (s.buf ++ c),
      ih ⟨s.buf ++ c, (processBytes s c).lineBuf, (processBytes s c).events⟩,
      processBytes_setBuf rest.flatten (processBytes s c) (s.buf ++ c)]
    simp [← processBytes_append, List.append_assoc]

/-! ### The claims -/

/-- C1, counterexample: with a passthrough sink configured whose write
errors on the chunk `"a"`, the accumulation buffer afterwards is *not* the
concatenation of every chunk written — the claim's "regardless of whether
that sink's write errored" fails. -/
theorem c1_counterexample :
    (pwRun true true initPW [("a".data, false)]).1.buf
      ≠ ([("a".data, false)].map Prod.fst).flatten := by
  decide

/-- C1 (amended): the accumulation buffer contains the exact concatenation,
in arrival order, of every chunk up to (and excluding) the first chunk on
which a configured passthrough sink's write errors; with no sink configured
(or no sink error) that is every chunk written.  Holds for both streams
(`hasCb` covers `progressWriter` and `teeWriter`). -/
theorem c1_buffer_concatenates_successful_chunks (hasSink hasCb : Bool)
    (cs : List (List Char × Bool)) :
    (pwRun hasSink hasCb initPW cs).1.buf
      = ((cs.takeWhile (fun p => !hasSink || p.2)).map Prod.fst).flatten := by
  rw [pwRun_buf hasSink hasCb cs initPW]
  rfl

/-- C2: when the configured passthrough sink's write errors on a chunk, the
whole write fails with the passthrough-write error and none of that chunk's
bytes reach the accumulation buffer — the accumulate step never runs, for
either writer shape (`hasCb` true or false). -/
theorem c2_passthrough_error_means_no_accumulation (hasCb : Bool) (s : PWState)
    (chunk : List Char) (rest : List (List Char × Bool)) :
    pwWriteChunk true hasCb s chunk false = .error .passthrough
    ∧ pwRun true hasCb s ((chunk, false) :: rest) = (s, some .passthrough)
    ∧ (pwRun true hasCb s ((chunk, false) :: rest)).1.buf = s.buf :=
  ⟨rfl, rfl, rfl⟩

/-- C3: two segmentations of the same byte stream, all writes succeeding,
fed to the stdout write-sink (progress callback configured, sink presence
arbitrary) leave identical accumulation buffers. -/
theorem c3_chunk_boundaries_do_not_matter (hasSink : Bool) (cs1 cs2 : List (List Char))
    (h : cs1.flatten = cs2.flatten) :
    (pwRun hasSink true initPW (allOk cs1)).1.buf
      = (pwRun hasSink true initPW (allOk cs2)).1.buf := by
  rw [pwRun_allOk hasSink cs1 initPW, pwRun_allOk hasSink cs2 initPW]
  simp [h]

/-- C3, witness: the stream `"ab"` chunked as `["ab"]` and as
`["a", "b"]`. -/
theorem c3_chunk_boundaries_do_not_matter_witness :
    ([['a', 'b']] : List (List Char)).flatten = ([['a'], ['b']] : List (List Char)).flatten
    ∧ (pwRun false true initPW (allOk [['a', 'b']])).1.buf
        = (pwRun false true initPW (allOk [['a'], ['b']])).1.buf :=
  ⟨by decide, c3_chunk_boundaries_do_not_matter false [['a', 'b']] [['a'], ['b']] (by decide)⟩

/-- C4, counterexample: the spec's example line
`"  42.5%  |  00:10  |  1.2MiB/s  "` does **not** decode.  The code strips
the trailing `%` *before* trimming whitespace (downloader.go:239), so field
1 normalises to `"42.5%"`, which `ParseFloat` rejects: the completed line
fires no callback. -/
theorem c4_counterexample :
    (parseProgress (goTrimSpace "  42.5%  |  00:10  |  1.2MiB/s  ")).2 = false
    ∧ (parseProgress "  42.5%  |  00:10  |  1.2MiB/s  ").2 = false
    ∧ (pwRun false true initPW (allOk ["  42.5%  |  00:10  |  1.2MiB/s  \n".data])).1.events
        = [] := by
  decide

/-- C4 (amended): a line of that form decodes to percent 42.5, ETA
`"00:10"`, speed `"1.2MiB/s"` only when no whitespace separates the `%`
from the field-1/field-2 delimiter (the code strips a single trailing `%`
*before* trimming whitespace); e.g. the completed line
`"  42.5%|  00:10  |  1.2MiB/s  \n"` fires exactly that update. -/
theorem c4_percent_adjacent_to_delimiter_decodes :
    (pwRun false true initPW (allOk ["  42.5%|  00:10  |  1.2MiB/s  \n".data])).1.events
      = [⟨.finite ⟨425, 10⟩, "00:10", "1.2MiB/s", "42.5%|  00:10  |  1.2MiB/s"⟩]
    ∧ Frac.toRat ⟨425, 10⟩ = 42.5 :=
  ⟨by decide, by norm_num [Frac.toRat]⟩

/-- C5: a line that does not split into exactly 3 fields, or whose
normalised first field is empty, or case-insensitively `"N/A"`, or fails to
parse as a float64, is not decoded, and a completed line with that trimmed
content fires no callback. -/
theorem c5_malformed_lines_not_decoded (line : String)
    (h : (goSplit '|' line).length ≠ progressPartsCount
       ∨ percentField line = ""
       ∨ goEqualFoldNA (percentField line) = true
       ∨ goParseFloat (percentField line).data = none) :
    (parseProgress line).2 = false
    ∧ ∀ pending : List Char,
        goTrimSpace (String.mk (pending ++ ['\n'])) = line →
          lineEvent (pending ++ ['\n']) = none := by
  have hfail : (parseProgress line).2 = false := by
    simp only [parseProgress]
    by_cases hl : (goSplit '|' line).length ≠ progressPartsCount
    · simp [hl]
    · rw [if_neg hl]
      rcases h with h | h | h | h
      · exact absurd h hl
      · simp [h]
      · simp [h]
      · split
        · rfl
        · rw [h]
  refine ⟨hfail, fun pending hp => ?_⟩
  simp only [lineEvent]
  rw [hp]
  simp [hfail]

/-- C5, witness: `"N/A%|Unknown|Unknown"` (field 1 normalises to `N/A`). -/
theorem c5_malformed_lines_not_decoded_witness :
    (parseProgress "N/A%|Unknown|Unknown").2 = false :=
  (c5_malformed_lines_not_decoded "N/A%|Unknown|Unknown" (by decide)).1

/-- C6: over any all-successful stream (with or without a passthrough
sink), the delivered updates are exactly those decoded from the
`'\n'`-terminated segments of the byte stream, in order; `segsFrom [] _`
drops the trailing unterminated remainder by construction, so a final
partial line never contributes a callback. -/
theorem c6_pending_partial_line_never_delivered (hasSink : Bool) (cs : List (List Char)) :
    (pwRun hasSink true initPW (allOk cs)).1.events
      = (segsFrom [] cs.flatten).filterMap lineEvent := by
  rw [pwRun_allOk hasSink cs initPW]
  show (processBytes initPW cs.flatten).events = _
  rw [processBytes_events cs.flatten initPW]
  rfl

/-- C7, counterexample: the stream `"150.5|00:10|2MiB/s\n"` delivers an
update whose percent, 150.5, lies outside the claimed 0–100 range. -/
theorem c7_counterexample :
    (pwRun false true initPW (allOk ["150.5|00:10|2MiB/s\n".data])).1.events
      = [⟨.finite ⟨1505, 10⟩, "00:10", "2MiB/s", "150.5|00:10|2MiB/s"⟩]
    ∧ ¬ ((0 : ℚ) ≤ Frac.toRat ⟨1505, 10⟩ ∧ Frac.toRat ⟨1505, 10⟩ ≤ 100) :=
  ⟨by decide, by norm_num [Frac.toRat]⟩

/-- C7 (amended): every delivered update carries, unclamped and
unvalidated, exactly the float64 parse of the normalised first field
(together with the trimmed fields 2 and 3 and the raw line); it lies in
0–100 only when that parsed value does. -/
theorem c7_percent_is_parsed_field_unclamped (line : String) (upd : ProgressUpdate)
    (h : parseProgress line = (upd, true)) :
    ∃ v : GoFloat, goParseFloat (percentField line).data = some v
      ∧ upd.Percent = v
      ∧ upd.ETA = goTrimSpace ((goSplit '|' line).getD 1 "")
      ∧ upd.Speed = goTrimSpace ((goSplit '|' line).getD 2 "")
      ∧ upd.Raw = line := by
  simp only [parseProgress] at h
  split at h
  · simp [Prod.ext_iff] at h
  · split at h
    · simp [Prod.ext_iff] at h
    · split at h
      · simp [Prod.ext_iff] at h
      · rename_i f heq
        injection h with h1 h2
        exact ⟨f, heq, by rw [← h1], by rw [← h1], by rw [← h1], by rw [← h1]⟩

/-- C7, witness: the line `"50%|eta|spd"`. -/
theorem c7_percent_is_parsed_field_unclamped_witness :
    ∃ v : GoFloat, goParseFloat (percentField "50%|eta|spd").data = some v
      ∧ (ProgressUpdate.mk (.finite ⟨50, 1⟩) "eta" "spd" "50%|eta|spd").Percent = v
      ∧ (ProgressUpdate.mk (.finite ⟨50, 1⟩) "eta" "spd" "50%|eta|spd").ETA
          = goTrimSpace ((goSplit '|' "50%|eta|spd").getD 1 "")
      ∧ (ProgressUpdate.mk (.finite ⟨50, 1⟩) "eta" "spd" "50%|eta|spd").Speed
          = goTrimSpace ((goSplit '|' "50%|eta|spd").getD 2 "")
      ∧ (ProgressUpdate.mk (.finite ⟨50, 1⟩) "eta" "spd" "50%|eta|spd").Raw
          = "50%|eta|spd" :=
  c7_percent_is_parsed_field_unclamped "50%|eta|spd"
    ⟨.finite ⟨50, 1⟩, "eta", "spd", "50%|eta|spd"⟩ (by decide)

/-- C8: the built argument list ends with the header flags, then the extra
raw arguments verbatim, then the URL as last token; the header keys are
visited in sorted order (`sortedHeaderKeys` is sorted and a permutation of
the map's keys, each emitting one flag pair iff its trimmed value is
non-empty); for headers `{"Z":"1","A":"2"}` the `A` flag precedes the `Z`
flag. -/
theorem c8_header_flags_sorted_then_extra_then_url (url : String) (opts : Options) :
    (∃ pre, buildArgs url opts = pre ++ headerArgs opts.Headers ++ opts.ExtraArgs ++ [url])
    ∧ List.Sorted strLeProp (sortedHeaderKeys opts.Headers)
    ∧ (sortedHeaderKeys opts.Headers).Perm (opts.Headers.map Prod.fst)
    ∧ buildArgs "u" ⟨"", "", "", "", [("Z", "1"), ("A", "2")], [], "", false, false, false⟩
        = ["--newline", "--no-progress", "--add-header", "A:2", "--add-header", "Z:1", "u"] :=
  ⟨⟨_, rfl⟩, List.sorted_insertionSort strLeProp _, List.perm_insertionSort strLeProp _,
    by decide⟩

/-- C9: with a non-empty URL and a configured binary, when the child
process fails the returned pair is `some` of the Run Result built from the
bytes both stream writers accumulated, alongside an error — the partial
result is not discarded. -/
theorem c9_failed_run_returns_partial_result (binPath url : String) (opts : Options)
    (proc : ProcBehavior) (hu : url ≠ "") (hb : binPath ≠ "") (hr : proc.runErr = true) :
    ∃ e : DownloadError,
      Download binPath url opts proc
        = (some ⟨(pwRun opts.hasStdout opts.hasProgress initPW proc.stdoutChunks).1.buf,
                 (pwRun opts.hasStderr false initPW proc.stderrChunks).1.buf⟩, some e) := by
  cases hc : proc.ctxErr with
  | true => exact ⟨.contextDone, by simp [Download, hu, hb, hr, hc]⟩
  | false =>
    exact ⟨.ytDlpFailed (trimSpaceL (pwRun opts.hasStderr false initPW proc.stderrChunks).1.buf),
      by simp [Download, hu, hb, hr, hc]⟩

/-- C9, witness: a failing run that produced `"hi"` on stdout and `"oops"`
on stderr. -/
theorem c9_failed_run_returns_partial_result_witness :
    ∃ e : DownloadError,
      Download "yt-dlp" "u" ⟨"", "", "", "", [], [], "", false, false, false⟩
          ⟨[("hi".data, true)], [("oops".data, true)], true, false⟩
        = (some ⟨(pwRun false false initPW [("hi".data, true)]).1.buf,
                 (pwRun false false initPW [("oops".data, true)]).1.buf⟩, some e) :=
  c9_failed_run_returns_partial_result "yt-dlp" "u"
    ⟨"", "", "", "", [], [], "", false, false, false⟩
    ⟨[("hi".data, true)], [("oops".data, true)], true, false⟩
    (by decide) (by decide) rfl

/-- C10: an empty URL yields `(nil, url-required error)` (checked first,
even if the binary path is also empty), and a non-empty URL with an empty
binary path yields `(nil, binary-not-configured error)`: configuration
errors return no Run Result at all. -/
theorem c10_config_errors_yield_no_result (binPath url : String) (opts : Options)
    (proc : ProcBehavior) :
    (url = "" → Download binPath url opts proc = (none, some .urlRequired))
    ∧ (url ≠ "" → binPath = "" →
        Download binPath url opts proc = (none, some .binaryNotConfigured)) := by
  constructor
  · intro h
    simp [Download, h]
  · intro hu hb
    simp [Download, hu, hb]

/-- C10, witness: both configuration errors at concrete inputs. -/
theorem c10_config_errors_yield_no_result_witness :
    Download "" "" ⟨"", "", "", "", [], [], "", false, false, false⟩ ⟨[], [], false, false⟩
        = (none, some .urlRequired)
    ∧ Download "" "u" ⟨"", "", "", "", [], [], "", false, false, false⟩ ⟨[], [], false, false⟩
        = (none, some .binaryNotConfigured) :=
  ⟨(c10_config_errors_yield_no_result "" ""
      ⟨"", "", "", "", [], [], "", false, false, false⟩ ⟨[], [], false, false⟩).1 rfl,
   (c10_config_errors_yield_no_result "" "u"
      ⟨"", "", "", "", [], [], "", false, false, false⟩ ⟨[], [], false, false⟩).2 (by decide) rfl⟩
